import Mathlib

/-!
Verification development for the enjin-snap-wallet-exporter repository
(src/generate_addresses.py).

Modelling conventions:
* A Python `bytes` value is a `List Nat` whose members are below 256.
* A Python `str` that only flows through slicing and UTF-8 encoding is
  modelled as the list of its Unicode code points (`List Nat`); the
  code-point list of a pure-ASCII string coincides with its UTF-8 bytes,
  which is proved, not assumed, where it matters.  Strings that stay
  opaque (the mnemonic, SS58 addresses, derivation-path arguments) are
  Lean `String`s.
* Calls into third-party cryptographic libraries (bip_utils, eth_account,
  substrateinterface, hashlib.scrypt, PyNaCl) are modelled as opaque
  function parameters bundled in `DerivLibs` / `CryptoModel`, except where
  a claim depends on the documented structure of the library output
  (the NaCl secretbox wire layout, the libsodium scrypt parameter picker,
  base64, UTF-8); those are embedded from the documented algorithms.
* The process CSPRNG (`os.urandom`) is explicit state: an encoder call
  receives the byte stream `rng` it draws from, `salt = rng 0 .. rng 31`
  and `nonce = rng 32 .. rng 55`, in the order the source draws them.
* `time.time()` is the explicit `now` parameter.
-/

/-- Byte strings (and ASCII code-point strings) are lists of naturals. -/
abbrev Bytes := List Nat

/-- ASCII code of the lowercase hexadecimal digit with value `n < 16`
(Python `format(n, "x")` digit): `0`-`9` are codes 48-57, `a`-`f` are
codes 97-102. -/
def hexDigitCode (n : Nat) : Nat :=
  if n < 10 then 48 + n else 87 + n

/-- Code points of the lowercase hex encoding of a byte string, two hex
digits per byte, high nibble first (Python `bytes.hex()`, bip_utils
`.Raw().ToHex()`). -/
def hexAscii : Bytes → Bytes
  | [] => []
  | b :: bs => hexDigitCode (b / 16) :: hexDigitCode (b % 16) :: hexAscii bs

/-- UTF-8 encoding of a single Unicode code point. -/
def utf8EncodeCode (n : Nat) : Bytes :=
  if n < 128 then [n]
  else if n < 2048 then [192 + n / 64, 128 + n % 64]
  else if n < 65536 then [224 + n / 4096, 128 + n / 64 % 64, 128 + n % 64]
  else [240 + n / 262144, 128 + n / 4096 % 64, 128 + n / 64 % 64, 128 + n % 64]

/-- UTF-8 encoding of a code-point string (Python `str.encode("utf-8")`). -/
def utf8Encode : Bytes → Bytes
  | [] => []
  | c :: cs => utf8EncodeCode c ++ utf8Encode cs

/-- Little-endian 4-byte encoding of an unsigned integer
(Python `struct.pack("<I", n)`). -/
def packLE4 (n : Nat) : Bytes :=
  [n % 256, n / 256 % 256, n / 65536 % 256, n / 16777216 % 256]

/-- Reads an unsigned 4-byte little-endian integer from the head of a byte
string (Python `struct.unpack("<I", bs[:4])`). -/
def readLE4 : Bytes → Nat
  | b0 :: b1 :: b2 :: b3 :: _ => b0 + 256 * b1 + 65536 * b2 + 16777216 * b3
  | _ => 0

/-- ASCII codes of the standard base64 alphabet
`A-Z a-z 0-9 + /` in value order (RFC 4648, Python `base64.b64encode`). -/
def b64Table : Bytes :=
  [65, 66, 67, 68, 69, 70, 71, 72, 73, 74, 75, 76, 77, 78, 79, 80, 81, 82,
   83, 84, 85, 86, 87, 88, 89, 90,
   97, 98, 99, 100, 101, 102, 103, 104, 105, 106, 107, 108, 109, 110, 111,
   112, 113, 114, 115, 116, 117, 118, 119, 120, 121, 122,
   48, 49, 50, 51, 52, 53, 54, 55, 56, 57, 43, 47]

/-- ASCII code of the base64 character for a 6-bit value. -/
def b64Code (n : Nat) : Nat := b64Table.getD n 0

/-- Index of a byte in a table (64 when absent, matching the table size
used here). -/
def findIdx64 (c : Nat) : Bytes → Nat
  | [] => 0
  | b :: bs => if b = c then 0 else findIdx64 c bs + 1

/-- Value of a base64 alphabet character. -/
def b64Val (c : Nat) : Nat := findIdx64 c b64Table

/-- Standard base64 encoding with `=` padding (ASCII 61), producing the
code points of the encoded string (Python
`base64.b64encode(bs).decode("ascii")`). -/
def base64Encode : Bytes → Bytes
  | a :: b :: c :: rest =>
      b64Code (a / 4) :: b64Code (a % 4 * 16 + b / 16) ::
        b64Code (b % 16 * 4 + c / 64) :: b64Code (c % 64) :: base64Encode rest
  | [a, b] => [b64Code (a / 4), b64Code (a % 4 * 16 + b / 16), b64Code (b % 16 * 4), 61]
  | [a] => [b64Code (a / 4), b64Code (a % 4 * 16), 61, 61]
  | [] => []

/-- Standard base64 decoding of a padded base64 string given as code
points (the inverse direction used by a keystore reader). -/
def base64Decode : Bytes → Bytes
  | c1 :: c2 :: c3 :: c4 :: rest =>
      if c3 = 61 then [b64Val c1 * 4 + b64Val c2 / 16]
      else if c4 = 61 then
        [b64Val c1 * 4 + b64Val c2 / 16, b64Val c2 % 16 * 16 + b64Val c3 / 4]
      else
        (b64Val c1 * 4 + b64Val c2 / 16) :: (b64Val c2 % 16 * 16 + b64Val c3 / 4) ::
          (b64Val c3 % 4 * 64 + b64Val c4) :: base64Decode rest
  | _ => []

/-- Abstract interface to the cryptographic primitives the encoder calls.
`scrypt password salt n r p dklen` models RFC 7914 scrypt as computed by
`hashlib.scrypt` and libsodium `crypto_pwhash_scryptsalsa208sha256_ll`.
`ks key nonce i` models byte `i` of the xsalsa20 keystream for
`(key, nonce)` (reduced mod 256 where used, since a keystream byte is a
byte).  `tag key nonce ct` models the 16-byte poly1305 authenticator of
the ciphertext `ct` (NaCl secretbox authenticates the ciphertext). -/
structure CryptoModel where
  scrypt : Bytes → Bytes → Nat → Nat → Nat → Nat → Bytes
  ks : Bytes → Bytes → Nat → Nat
  tag : Bytes → Bytes → Bytes → Bytes

/-- Pointwise xor of two byte strings, truncated to the shorter one. -/
def xorBytes : Bytes → Bytes → Bytes
  | a :: as, k :: ks => (a ^^^ k) :: xorBytes as ks
  | _, _ => []

/-- First `len` bytes of the xsalsa20 keystream for `(key, nonce)`. -/
def ksBytes (M : CryptoModel) (key nonce : Bytes) (len : Nat) : Bytes :=
  (List.range len).map (fun i => M.ks key nonce i % 256)

/-- The xsalsa20 stream-cipher core: xor the data with the keystream.
Applying it twice with the same key and nonce restores the data. -/
def sboxCipher (M : CryptoModel) (key nonce pt : Bytes) : Bytes :=
  xorBytes pt (ksBytes M key nonce pt.length)

/-- PyNaCl `SecretBox(key).encrypt(pt, nonce)`: the NaCl secretbox
combined wire format, `nonce(24) ‖ tag(16) ‖ ciphertext` — the poly1305
tag comes first, directly after the prepended nonce (libsodium
`crypto_secretbox`, with the 16 leading zero bytes of the classic API
already stripped by the binding). -/
def sboxEncrypt (M : CryptoModel) (key nonce pt : Bytes) : Bytes :=
  nonce ++ (M.tag key nonce (sboxCipher M key nonce pt) ++ sboxCipher M key nonce pt)

/-- NaCl secretbox opening of a `tag(16) ‖ ciphertext` box: recompute the
poly1305 tag over the ciphertext, fail on mismatch, otherwise undo the
keystream xor. -/
def sboxDecrypt (M : CryptoModel) (key nonce box : Bytes) : Option Bytes :=
  let t := box.take 16
  let ct := box.drop 16
  if t = M.tag key nonce ct then some (sboxCipher M key nonce ct) else none

/-- Substrate keypair as used by the script: `substrateinterface.Keypair`
restricted to the two attributes `build_keystore` reads. -/
structure Keypair where
  public_key : Bytes
  ss58_address : String
deriving DecidableEq

/-- Ethereum account as returned by `eth_account` `Account.from_mnemonic`,
restricted to the attributes `main` reads. -/
structure EthAccount where
  address : String
  key : Bytes
deriving DecidableEq

/-- Ambient process state visible to the script: the `os.urandom` byte
stream and the `time.time()` clock in milliseconds.  The three
derivations never touch it; the keystore encoder does. -/
structure World where
  rng : Nat → Nat
  nowMs : Nat

/-- Typed failure taxonomy of the derivation core.  A Python exception
raised by a library call and caught by the caller is modelled as an
`Except` error value. -/
inductive DeriveError where
  | invalidMnemonic
  | derivationError
deriving DecidableEq

/-- Deterministic third-party library functions the derivations call.
`eth_validate` is the BIP-39 word-list and checksum validation performed
inside `Account.from_mnemonic`; `eth_account m path` its result on a
valid mnemonic.  `sr_create suri fmt ctype` is
`substrateinterface.Keypair.create_from_uri`.  `bip39_generate` is
`Bip39SeedGenerator(m).Generate()`, the 64-byte BIP-39 seed
(PBKDF2-HMAC-SHA512, 2048 rounds, empty passphrase).  `slip10_derive
seed path` is `Bip32Slip10Secp256k1.FromSeedAndPath(seed,
path).PrivateKey().Raw()`, the 32-byte SLIP-10 secp256k1 private scalar
at the given hardened path.  `ed_create seed fmt ctype` is
`Keypair.create_from_seed`.  All are fixed pure functions: the libraries
take no randomness and keep no state across calls. -/
structure DerivLibs where
  eth_validate : String → Bool
  eth_account : String → String → EthAccount
  sr_create : String → Nat → Nat → Keypair
  bip39_generate : String → Bytes
  slip10_derive : Bytes → String → Bytes
  ed_create : Bytes → Nat → Nat → Keypair

/-- SS58 format for Enjin Matrixchain (source constant `SS58_FORMAT`). -/
def SS58_FORMAT : Nat := 1110

/-- substrateinterface `KeypairType.ED25519`. -/
def KeypairType_ED25519 : Nat := 0

/-- substrateinterface `KeypairType.SR25519`. -/
def KeypairType_SR25519 : Nat := 1

/-- BIP-44 Ethereum account path string passed to `Account.from_mnemonic`
(the string `m/44h/60h/0h/0/0` with hardened marks written as ASCII 39). -/
def ethAccountPath : String := "m/44\x27/60\x27/0\x27/0/0"

/-- Hardened SLIP-10 path string passed to `FromSeedAndPath` (the string
`m/44h/1155h` with hardened marks written as ASCII 39). -/
def enjinSnapPath : String := "m/44\x27/1155\x27"

/-- Models `eth_account` `Account.from_mnemonic(m, account_path)`: the
library validates the BIP-39 mnemonic (word-list membership and checksum)
and raises a validation error on failure, modelled as a typed
`Except.error .invalidMnemonic`; on success it returns the derived
account. -/
def Account_from_mnemonic (L : DerivLibs) (m path : String) :
    Except DeriveError EthAccount :=
  if L.eth_validate m then Except.ok (L.eth_account m path) else
    Except.error DeriveError.invalidMnemonic

/-- Source `derive_ethereum`: standard BIP-44 derivation at
`m/44h/60h/0h/0/0` via `Account.from_mnemonic`.  Reads nothing from the
ambient world. -/
def derive_ethereum (L : DerivLibs) (_w : World) (m : String) :
    Except DeriveError EthAccount :=
  Account_from_mnemonic L m ethAccountPath

/-- Source `derive_matrixchain_sr25519`: sr25519 keypair from the
mnemonic with a blank derivation path, SS58 format 1110.  Reads nothing
from the ambient world. -/
def derive_matrixchain_sr25519 (L : DerivLibs) (_w : World) (m : String) : Keypair :=
  L.sr_create m SS58_FORMAT KeypairType_SR25519

/-- The 32-byte SLIP-10 secp256k1 private scalar the snap derivation
computes: steps 1-2 of `derive_enjin_snap_ed25519` (BIP-39 seed, then
`Bip32Slip10Secp256k1.FromSeedAndPath` at the hardened path 44, 1155). -/
def snapScalar (L : DerivLibs) (m : String) : Bytes :=
  L.slip10_derive (L.bip39_generate m) enjinSnapPath

/-- Steps 3-4 of `derive_enjin_snap_ed25519`: the code points of
`("0x" + priv_key_hex)[:32]` — the two ASCII characters `0` (48) and `x`
(120) followed by the lowercase hex digits of the scalar, truncated to
the first 32 characters. -/
def snapSeedCodes (scalar : Bytes) : Bytes :=
  (48 :: 120 :: hexAscii scalar).take 32

/-- Source `derive_enjin_snap_ed25519`: BIP-39 seed → SLIP-10 secp256k1
at the hardened path 44, 1155 → 0x-prefixed lowercase hex → first 32
characters → UTF-8 bytes → ed25519 keypair from that 32-byte seed.
Returns the `(keypair, seed_bytes)` pair.  Reads nothing from the
ambient world. -/
def derive_enjin_snap_ed25519 (L : DerivLibs) (_w : World) (m : String) :
    Keypair × Bytes :=
  let seed_bytes := utf8Encode (snapSeedCodes (snapScalar L m))
  (L.ed_create seed_bytes SS58_FORMAT KeypairType_ED25519, seed_bytes)

/-- Fixed PKCS8 ed25519 header bytes from `build_keystore`: SEQUENCE,
INTEGER version 1, AlgorithmIdentifier with the ed25519 OID, OCTET
STRING wrapping the 32-byte secret. -/
def pkcs8_header : Bytes :=
  [0x30, 0x53, 0x02, 0x01, 0x01, 0x30, 0x05, 0x06,
   0x03, 0x2b, 0x65, 0x70, 0x04, 0x22, 0x04, 0x20]

/-- Fixed PKCS8 divider bytes from `build_keystore`, introducing the
public-key element. -/
def pkcs8_divider : Bytes := [0xa1, 0x23, 0x03, 0x21, 0x00]

/-- The plaintext `build_keystore` encrypts:
`pkcs8_header + seed_bytes + pkcs8_divider + keypair.public_key`. -/
def keystorePlaintext (seed_bytes public_key : Bytes) : Bytes :=
  pkcs8_header ++ seed_bytes ++ pkcs8_divider ++ public_key

/-- The JSON-equivalent record `build_keystore` returns. -/
structure Keystore where
  encoded : Bytes
  encodingContent : List String
  encodingType : List String
  encodingVersion : String
  address : String
  metaName : String
  metaWhenCreated : Nat
deriving DecidableEq

/-- Source `build_keystore(keypair, seed_bytes, password)` on the branch
where `hashlib.scrypt` is available (the primary key-derivation branch).
`rng` is the `os.urandom` stream of this call: the 32-byte salt is drawn
first, the 24-byte nonce after the key derivation, exactly as in the
source; `now` is `time.time()` in milliseconds.  The password is a
code-point string, UTF-8 encoded before key derivation as in the
source. -/
def build_keystore (M : CryptoModel) (rng : Nat → Nat) (now : Nat)
    (keypair : Keypair) (seed_bytes : Bytes) (password : Bytes) : Keystore :=
  let plaintext := keystorePlaintext seed_bytes keypair.public_key
  let scrypt_n := 1 <<< 15
  let scrypt_p := 1
  let scrypt_r := 8
  let salt := (List.range 32).map rng
  let password_bytes := utf8Encode password
  let key := M.scrypt password_bytes salt scrypt_n scrypt_r scrypt_p 32
  let nonce := (List.range 24).map (fun i => rng (32 + i))
  let encrypted := (sboxEncrypt M key nonce plaintext).drop 24
  let encoded_bytes :=
    salt ++ packLE4 scrypt_n ++ packLE4 scrypt_p ++ packLE4 scrypt_r ++ nonce ++ encrypted
  { encoded := base64Encode encoded_bytes
    encodingContent := ["pkcs8", "ed25519"]
    encodingType := ["scrypt", "xsalsa20-poly1305"]
    encodingVersion := "3"
    address := keypair.ss58_address
    metaName := "Enjin Snap"
    metaWhenCreated := now }

/-- Substrate keystore reader matching the spec round-trip property:
base64-decode the `encoded` field, read back the 32-byte salt, the three
4-byte little-endian scrypt parameters `N`, `p`, `r` and the 24-byte
nonce, re-derive the key from the given password with those parameters,
and open the authenticated box that follows. -/
def decodeKeystore (M : CryptoModel) (password : Bytes) (ks : Keystore) :
    Option Bytes :=
  let blob := base64Decode ks.encoded
  let salt := blob.take 32
  let n := readLE4 (blob.drop 32)
  let p := readLE4 (blob.drop 36)
  let r := readLE4 (blob.drop 40)
  let nonce := (blob.drop 44).take 24
  let box := blob.drop 68
  let key := M.scrypt (utf8Encode password) salt n r p 32
  sboxDecrypt M key nonce box

/-- Models the scrypt-parameter picker of libsodium
(`pickparams` in `crypto_pwhash/scryptsalsa208sha256`), as reimplemented
byte-for-byte in Python by PyNaCl as
`nacl.bindings.nacl_bindings_pick_scrypt_params`: the inner loop that
finds the first `n_log2` in `1..62` with `2 ^ n_log2 > maxn / 2`,
falling through to 63. -/
def pickNLog2 (maxn : Nat) : Nat :=
  match (List.range 62).find? (fun i => maxn / 2 < 2 ^ (i + 1)) with
  | some i => i + 1
  | none => 63

/-- Models libsodium `pickparams(opslimit, memlimit)` returning
`(n_log2, r, p)`: `opslimit` is floored at 32768, `r` is fixed at 8, and
when `opslimit < memlimit / 32` the branch taken picks `p = 1` and
`n_log2` from `maxn = opslimit / (r * 4)`. -/
def pickScryptParams (opslimit memlimit : Nat) : Nat × Nat × Nat :=
  let ops := if opslimit < 32768 then 32768 else opslimit
  let r := 8
  if ops < memlimit / 32 then
    (pickNLog2 (ops / (r * 4)), r, 1)
  else
    let nLog2 := pickNLog2 (memlimit / (r * 128))
    let maxrp := min (ops / 4 / 2 ^ nLog2) 0x3fffffff
    (nLog2, r, maxrp / r)

/-- Models PyNaCl `nacl.pwhash.scrypt.kdf(size, password, salt, opslimit,
memlimit)`: picks `(n_log2, r, p)` with the libsodium parameter picker,
then computes raw scrypt with `n = 2 ^ n_log2`. -/
def pwhash_scrypt_kdf (M : CryptoModel) (size : Nat) (password salt : Bytes)
    (opslimit memlimit : Nat) : Bytes :=
  let q := pickScryptParams opslimit memlimit
  M.scrypt password salt (2 ^ q.1) q.2.1 q.2.2 size

/-- The key computed by the `except AttributeError` fallback branch of
`build_keystore`: `nacl.pwhash.scrypt.kdf(32, password_bytes, salt,
opslimit=scrypt_n, memlimit=128 * scrypt_n * scrypt_r)` with
`scrypt_n = 1 <<< 15` and `scrypt_r = 8`. -/
def build_keystore_fallback_key (M : CryptoModel) (password_bytes salt : Bytes) : Bytes :=
  pwhash_scrypt_kdf M 32 password_bytes salt (1 <<< 15) (128 * (1 <<< 15) * 8)

/-- Concrete library instance used by the closed witness theorems. -/
def L0 : DerivLibs where
  eth_validate := fun _ => false
  eth_account := fun _ _ => { address := "", key := [] }
  sr_create := fun _ _ _ => { public_key := [], ss58_address := "" }
  bip39_generate := fun _ => []
  slip10_derive := fun _ _ => List.replicate 32 0
  ed_create := fun _ _ _ => { public_key := List.replicate 32 0, ss58_address := "" }

/-- Concrete ambient world used by the closed witness theorems. -/
def W0 : World where
  rng := fun _ => 0
  nowMs := 0

/-- Concrete crypto primitive instance used by closed witness theorems:
constant scrypt output, zero keystream, zero tag. -/
def M0 : CryptoModel where
  scrypt := fun _ _ _ _ _ _ => List.replicate 32 0
  ks := fun _ _ _ => 0
  tag := fun _ _ _ => List.replicate 16 0

/-- Crypto primitive instance whose scrypt output records the cost
parameter `n`, separating computations that use different `n`. -/
def M1 : CryptoModel where
  scrypt := fun _ _ n _ _ _ => [n]
  ks := fun _ _ _ => 0
  tag := fun _ _ _ => []

/-- Concrete urandom stream drawing the byte 1 everywhere, used by the
closed witness theorems that need two distinct streams. -/
def rngOne : Nat → Nat := fun _ => 1

/-- The 32-byte salt `build_keystore` draws: the first 32 bytes of the
urandom stream of the call. -/
def keystoreSalt (rng : Nat → Nat) : Bytes := (List.range 32).map rng

/-- The 24-byte nonce `build_keystore` draws after the key derivation:
urandom bytes 32 to 55 of the call. -/
def keystoreNonce (rng : Nat → Nat) : Bytes :=
  (List.range 24).map (fun i => rng (32 + i))

/-- The 32-byte symmetric key `build_keystore` derives on the primary
branch: `hashlib.scrypt(password_bytes, salt, n = 1 <<< 15, r = 8,
p = 1, dklen = 32)`. -/
def keystoreKey (M : CryptoModel) (rng : Nat → Nat) (password : Bytes) : Bytes :=
  M.scrypt (utf8Encode password) (keystoreSalt rng) (1 <<< 15) 8 1 32

/-- The xsalsa20 ciphertext of the 85-byte PKCS8 plaintext under the
derived key and drawn nonce. -/
def keystoreCipher (M : CryptoModel) (rng : Nat → Nat) (keypair : Keypair)
    (seed_bytes password : Bytes) : Bytes :=
  sboxCipher M (keystoreKey M rng password) (keystoreNonce rng)
    (keystorePlaintext seed_bytes keypair.public_key)

/-- The authenticated box `build_keystore` appends after the nonce: the
secretbox output with the prepended nonce stripped, that is the 16-byte
poly1305 tag followed by the ciphertext. -/
def keystoreBox (M : CryptoModel) (rng : Nat → Nat) (keypair : Keypair)
    (seed_bytes password : Bytes) : Bytes :=
  M.tag (keystoreKey M rng password) (keystoreNonce rng)
      (keystoreCipher M rng keypair seed_bytes password)
    ++ keystoreCipher M rng keypair seed_bytes password

/-- The byte blob `build_keystore` base64-encodes into the `encoded`
field: salt, N, p, r (4-byte little-endian each), nonce, box. -/
def keystoreBlob (M : CryptoModel) (rng : Nat → Nat) (keypair : Keypair)
    (seed_bytes password : Bytes) : Bytes :=
  keystoreSalt rng ++ packLE4 (1 <<< 15) ++ packLE4 1 ++ packLE4 8
    ++ keystoreNonce rng ++ keystoreBox M rng keypair seed_bytes password

/-! Helper lemmas. -/

theorem utf8EncodeCode_ascii (c : Nat) (h : c < 128) : utf8EncodeCode c = [c] := by
  simp [utf8EncodeCode, h]

theorem utf8Encode_ascii (cs : Bytes) (h : ∀ c ∈ cs, c < 128) :
    utf8Encode cs = cs := by
  induction cs with
  | nil => rfl
  | cons c cs ih =>
      have hc : c < 128 := h c (by simp)
      simp [utf8Encode, utf8EncodeCode_ascii c hc,
        ih (fun d hd => h d (by simp [hd]))]

theorem hexAscii_length (bs : Bytes) : (hexAscii bs).length = 2 * bs.length := by
  induction bs with
  | nil => rfl
  | cons b bs ih => simp [hexAscii, ih]; omega

theorem hexDigitCode_lt_128 (n : Nat) (h : n < 16) : hexDigitCode n < 128 := by
  simp only [hexDigitCode]
  split <;> omega

theorem hexDigitCode_range (n : Nat) (h : n < 16) :
    (48 ≤ hexDigitCode n ∧ hexDigitCode n ≤ 57) ∨
      (97 ≤ hexDigitCode n ∧ hexDigitCode n ≤ 102) := by
  simp only [hexDigitCode]
  split
  · left; omega
  · right; omega

theorem hexAscii_mem (bs : Bytes) (hb : ∀ b ∈ bs, b < 256) :
    ∀ c ∈ hexAscii bs, ∃ k, k < 16 ∧ c = hexDigitCode k := by
  induction bs with
  | nil => intro c hc; simp [hexAscii] at hc
  | cons b bs ih =>
      intro c hc
      have hblt : b < 256 := hb b (by simp)
      simp only [hexAscii, List.mem_cons] at hc
      rcases hc with h1 | h2 | h3
      · exact ⟨b / 16, by omega, h1⟩
      · exact ⟨b % 16, by omega, h2⟩
      · exact ih (fun d hd => hb d (by simp [hd])) c h3

theorem b64Val_b64Code : ∀ n, n < 64 → b64Val (b64Code n) = n := by decide

theorem b64Code_ne_61 : ∀ n, n < 64 → b64Code n ≠ 61 := by decide

theorem chunk3Induction {P : Bytes → Prop} (h0 : P []) (h1 : ∀ a, P [a])
    (h2 : ∀ a b, P [a, b]) (h3 : ∀ a b c rest, P rest → P (a :: b :: c :: rest)) :
    ∀ bs, P bs
  | [] => h0
  | [a] => h1 a
  | [a, b] => h2 a b
  | a :: b :: c :: rest => h3 a b c rest (chunk3Induction h0 h1 h2 h3 rest)

theorem base64_roundtrip :
    ∀ bs : Bytes, (∀ b ∈ bs, b < 256) → base64Decode (base64Encode bs) = bs := by
  intro bs
  induction bs using chunk3Induction with
  | h0 => intro _; rfl
  | h1 a =>
      intro h
      have ha : a < 256 := h a (by simp)
      have e1 := b64Val_b64Code (a / 4) (by omega)
      have e2 := b64Val_b64Code (a % 4 * 16) (by omega)
      simp [base64Encode, base64Decode, e1, e2]
      omega
  | h2 a b =>
      intro h
      have ha : a < 256 := h a (by simp)
      have hb : b < 256 := h b (by simp)
      have e1 := b64Val_b64Code (a / 4) (by omega)
      have e2 := b64Val_b64Code (a % 4 * 16 + b / 16) (by omega)
      have e3 := b64Val_b64Code (b % 16 * 4) (by omega)
      have n3 := b64Code_ne_61 (b % 16 * 4) (by omega)
      simp [base64Encode, base64Decode, e1, e2, e3, n3]
      omega
  | h3 a b c rest ih =>
      intro h
      have ha : a < 256 := h a (by simp)
      have hb : b < 256 := h b (by simp)
      have hc : c < 256 := h c (by simp)
      have hrest : ∀ d ∈ rest, d < 256 := fun d hd => h d (by simp [hd])
      have e1 := b64Val_b64Code (a / 4) (by omega)
      have e2 := b64Val_b64Code (a % 4 * 16 + b / 16) (by omega)
      have e3 := b64Val_b64Code (b % 16 * 4 + c / 64) (by omega)
      have e4 := b64Val_b64Code (c % 64) (by omega)
      have n3 := b64Code_ne_61 (b % 16 * 4 + c / 64) (by omega)
      have n4 := b64Code_ne_61 (c % 64) (by omega)
      simp [base64Encode, base64Decode, e1, e2, e3, e4, n3, n4, ih hrest]
      omega

theorem xorBytes_length (as ks : Bytes) :
    (xorBytes as ks).length = min as.length ks.length := by
  induction as generalizing ks with
  | nil => cases ks <;> simp [xorBytes]
  | cons a as ih =>
      cases ks with
      | nil => simp [xorBytes]
      | cons k ks => simp [xorBytes, ih]; omega

theorem xorBytes_invol (as : Bytes) :
    ∀ ks : Bytes, as.length ≤ ks.length → xorBytes (xorBytes as ks) ks = as := by
  induction as with
  | nil => intro ks _; cases ks <;> rfl
  | cons a as ih =>
      intro ks hlen
      cases ks with
      | nil => simp at hlen
      | cons k ks =>
          simp only [xorBytes]
          rw [Nat.xor_assoc, Nat.xor_self, Nat.xor_zero,
            ih ks (by simpa using hlen)]

theorem xorBytes_mem_lt (as ks : Bytes) (ha : ∀ a ∈ as, a < 256)
    (hk : ∀ k ∈ ks, k < 256) : ∀ b ∈ xorBytes as ks, b < 256 := by
  induction as generalizing ks with
  | nil => intro b hb; cases ks <;> simp [xorBytes] at hb
  | cons a as ih =>
      intro b hb
      cases ks with
      | nil => simp [xorBytes] at hb
      | cons k ks =>
          simp only [xorBytes, List.mem_cons] at hb
          rcases hb with hb | hb
          · subst hb
            have h1 : a < 2 ^ 8 := ha a (by simp)
            have h2 : k < 2 ^ 8 := hk k (by simp)
            exact Nat.xor_lt_two_pow h1 h2
          · exact ih ks (fun x hx => ha x (by simp [hx]))
              (fun x hx => hk x (by simp [hx])) b hb

theorem ksBytes_length (M : CryptoModel) (key nonce : Bytes) (len : Nat) :
    (ksBytes M key nonce len).length = len := by
  simp [ksBytes]

theorem ksBytes_mem_lt (M : CryptoModel) (key nonce : Bytes) (len : Nat) :
    ∀ b ∈ ksBytes M key nonce len, b < 256 := by
  intro b hb
  simp only [ksBytes, List.mem_map] at hb
  obtain ⟨i, _, hi⟩ := hb
  omega

theorem sboxCipher_length (M : CryptoModel) (key nonce pt : Bytes) :
    (sboxCipher M key nonce pt).length = pt.length := by
  simp [sboxCipher, xorBytes_length, ksBytes_length]

theorem sboxCipher_mem_lt (M : CryptoModel) (key nonce pt : Bytes)
    (h : ∀ b ∈ pt, b < 256) : ∀ b ∈ sboxCipher M key nonce pt, b < 256 :=
  xorBytes_mem_lt pt _ h (ksBytes_mem_lt M key nonce pt.length)

theorem sboxCipher_invol (M : CryptoModel) (key nonce pt : Bytes) :
    sboxCipher M key nonce (sboxCipher M key nonce pt) = pt := by
  have h1 : (sboxCipher M key nonce pt).length = pt.length :=
    sboxCipher_length M key nonce pt
  show xorBytes (sboxCipher M key nonce pt)
      (ksBytes M key nonce (sboxCipher M key nonce pt).length) = pt
  rw [h1]
  exact xorBytes_invol pt (ksBytes M key nonce pt.length)
    (by rw [ksBytes_length])

theorem readLE4_packLE4 (n : Nat) (rest : Bytes) (h : n < 4294967296) :
    readLE4 (packLE4 n ++ rest) = n := by
  simp only [packLE4, List.cons_append, List.nil_append, readLE4]
  omega

theorem packLE4_mem_lt (n : Nat) : ∀ b ∈ packLE4 n, b < 256 := by
  intro b hb
  simp only [packLE4, List.mem_cons, List.not_mem_nil, or_false] at hb
  rcases hb with h | h | h | h <;> omega

theorem snapSeedCodes_eq (scalar : Bytes) :
    snapSeedCodes scalar = 48 :: 120 :: (hexAscii scalar).take 30 := rfl

theorem utf8_snapSeedCodes (scalar : Bytes) (h : ∀ b ∈ scalar, b < 256) :
    utf8Encode (snapSeedCodes scalar) = snapSeedCodes scalar := by
  apply utf8Encode_ascii
  intro c hc
  rw [snapSeedCodes_eq] at hc
  simp only [List.mem_cons] at hc
  rcases hc with rfl | rfl | hc
  · omega
  · omega
  · have hc2 : c ∈ hexAscii scalar := List.take_subset _ _ hc
    obtain ⟨k, hk, rfl⟩ := hexAscii_mem _ h c hc2
    exact hexDigitCode_lt_128 k hk

theorem snapSeedCodes_length (scalar : Bytes) (h : scalar.length = 32) :
    (snapSeedCodes scalar).length = 32 := by
  rw [snapSeedCodes_eq]
  simp [List.length_take, hexAscii_length, h]

/-- C1: for every valid mnemonic, the Snap derivation seed bytes are the
UTF-8 bytes of the first 32 characters of the string `0x` followed by the
lowercase hex encoding of the 32-byte SLIP-10 secp256k1 scalar derived at
the hardened path 44, 1155 from the BIP-39 seed; under the ASCII identity
mapping they are exactly 32 bytes: the codes of `0` and `x` followed by
the codes of the first 30 hex digits. -/
theorem C1_snap_seed_bytes (L : DerivLibs) (w : World) (m : String)
    (h1 : (snapScalar L m).length = 32)
    (h2 : ∀ b ∈ snapScalar L m, b < 256) :
    (derive_enjin_snap_ed25519 L w m).2
        = utf8Encode (snapSeedCodes (snapScalar L m))
    ∧ (derive_enjin_snap_ed25519 L w m).2
        = 48 :: 120 :: (hexAscii (snapScalar L m)).take 30
    ∧ ((derive_enjin_snap_ed25519 L w m).2).length = 32 := by
  refine ⟨rfl, ?_, ?_⟩
  · show utf8Encode (snapSeedCodes (snapScalar L m)) = _
    rw [utf8_snapSeedCodes _ h2, snapSeedCodes_eq]
  · show (utf8Encode (snapSeedCodes (snapScalar L m))).length = 32
    rw [utf8_snapSeedCodes _ h2]
    exact snapSeedCodes_length _ h1

/-- Witness for C1 at the concrete instance `L0`, `W0`, empty mnemonic. -/
theorem C1_snap_seed_bytes_witness :
    ((snapScalar L0 "").length = 32 ∧ ∀ b ∈ snapScalar L0 "", b < 256)
      ∧ (derive_enjin_snap_ed25519 L0 W0 "").2
          = 48 :: 120 :: (hexAscii (snapScalar L0 "")).take 30 :=
  ⟨⟨by decide, by decide⟩,
    (C1_snap_seed_bytes L0 W0 "" (by decide) (by decide)).2.1⟩

/-- C2: the plaintext the Substrate-style encoder encrypts is the 16
fixed PKCS8 ed25519 header bytes, the 32 seed bytes, the 5 fixed PKCS8
divider bytes and the 32 public-key bytes, 85 bytes in total. -/
theorem C2_plaintext_layout (seed_bytes public_key : Bytes)
    (h1 : seed_bytes.length = 32) (h2 : public_key.length = 32) :
    keystorePlaintext seed_bytes public_key
        = [0x30, 0x53, 0x02, 0x01, 0x01, 0x30, 0x05, 0x06, 0x03, 0x2b, 0x65,
           0x70, 0x04, 0x22, 0x04, 0x20] ++ seed_bytes ++
            [0xa1, 0x23, 0x03, 0x21, 0x00] ++ public_key
    ∧ (keystorePlaintext seed_bytes public_key).length = 85 := by
  refine ⟨rfl, ?_⟩
  simp [keystorePlaintext, pkcs8_header, pkcs8_divider, h1, h2]

/-- Witness for C2 at concrete all-zero seed and public key. -/
theorem C2_plaintext_layout_witness :
    ((List.replicate 32 0 : Bytes).length = 32)
      ∧ (keystorePlaintext (List.replicate 32 0) (List.replicate 32 0)).length = 85 :=
  ⟨by decide,
    (C2_plaintext_layout (List.replicate 32 0) (List.replicate 32 0)
      (by decide) (by decide)).2⟩

/-- C10: for every valid mnemonic the 32 Snap seed bytes come from a tiny
alphabet: the first byte is 48 (`0`), the second is 120 (`x`), and each
of the remaining 30 bytes is the ASCII code of a lowercase hex digit
(48-57 or 97-102), so the seed carries at most 120 bits of entropy. -/
theorem C10_seed_alphabet (L : DerivLibs) (w : World) (m : String)
    (h1 : (snapScalar L m).length = 32)
    (h2 : ∀ b ∈ snapScalar L m, b < 256) :
    ∃ rest, (derive_enjin_snap_ed25519 L w m).2 = 48 :: 120 :: rest
      ∧ rest.length = 30
      ∧ ∀ c ∈ rest, (48 ≤ c ∧ c ≤ 57) ∨ (97 ≤ c ∧ c ≤ 102) := by
  refine ⟨(hexAscii (snapScalar L m)).take 30, ?_, ?_, ?_⟩
  · show utf8Encode (snapSeedCodes (snapScalar L m)) = _
    rw [utf8_snapSeedCodes _ h2, snapSeedCodes_eq]
  · simp [List.length_take, hexAscii_length, h1]
  · intro c hc
    have hc2 : c ∈ hexAscii (snapScalar L m) := List.take_subset _ _ hc
    obtain ⟨k, hk, rfl⟩ := hexAscii_mem _ h2 c hc2
    exact hexDigitCode_range k hk

/-- Witness for C10 at the concrete instance `L0`, `W0`, empty mnemonic. -/
theorem C10_seed_alphabet_witness :
    ((snapScalar L0 "").length = 32)
      ∧ ∃ rest, (derive_enjin_snap_ed25519 L0 W0 "").2 = 48 :: 120 :: rest
          ∧ rest.length = 30
          ∧ ∀ c ∈ rest, (48 ≤ c ∧ c ≤ 57) ∨ (97 ≤ c ∧ c ≤ 102) :=
  ⟨by decide, C10_seed_alphabet L0 W0 "" (by decide) (by decide)⟩

/-- C8: each of the three derivations is a pure total function of the
mnemonic alone.  With the ambient process state (CSPRNG stream, clock)
made explicit, every derivation is invariant under it, and two
invocations on the same mnemonic yield identical results: same Ethereum
account, same sr25519 keypair, and the same ed25519 keypair and seed
bytes for the Snap derivation. -/
theorem C8_derivations_deterministic (L : DerivLibs) (w1 w2 : World) (m : String) :
    derive_ethereum L w1 m = derive_ethereum L w2 m
    ∧ derive_matrixchain_sr25519 L w1 m = derive_matrixchain_sr25519 L w2 m
    ∧ derive_enjin_snap_ed25519 L w1 m = derive_enjin_snap_ed25519 L w2 m :=
  ⟨rfl, rfl, rfl⟩

/-- C9: on a mnemonic rejected by the BIP-39 word-list or checksum
validation, the Ethereum derivation yields the typed failure
`invalidMnemonic` (the validation error raised inside
`Account.from_mnemonic`, modelled as an `Except` error) and returns no
account. -/
theorem C9_invalid_mnemonic (L : DerivLibs) (w : World) (m : String)
    (h : L.eth_validate m = false) :
    derive_ethereum L w m = Except.error DeriveError.invalidMnemonic
    ∧ ∀ a : EthAccount, derive_ethereum L w m ≠ Except.ok a := by
  have he : derive_ethereum L w m = Except.error DeriveError.invalidMnemonic := by
    simp [derive_ethereum, Account_from_mnemonic, h]
  exact ⟨he, fun a hok => by rw [he] at hok; exact Except.noConfusion hok⟩

/-- Witness for C9 at the concrete instance `L0` (whose validation
rejects every mnemonic), `W0`, empty mnemonic. -/
theorem C9_invalid_mnemonic_witness :
    (L0.eth_validate "" = false)
      ∧ derive_ethereum L0 W0 "" = Except.error DeriveError.invalidMnemonic :=
  ⟨by decide, (C9_invalid_mnemonic L0 W0 "" (by decide)).1⟩

/-- C3: the `encoded` field is the base64 encoding of the 32-byte salt,
then 32768, 1 and 8 as 4-byte little-endian unsigned integers (in the
order N, p, r), then the 24-byte nonce, then the authenticated box, in
exactly that order; the three little-endian fields are the byte lists
`[0, 128, 0, 0]`, `[1, 0, 0, 0]` and `[8, 0, 0, 0]`. -/
theorem C3_encoded_blob_layout (M : CryptoModel) (rng : Nat → Nat) (now : Nat)
    (keypair : Keypair) (seed_bytes : Bytes) (password : Bytes) :
    (build_keystore M rng now keypair seed_bytes password).encoded
        = base64Encode ((List.range 32).map rng
            ++ packLE4 32768 ++ packLE4 1 ++ packLE4 8
            ++ (List.range 24).map (fun i => rng (32 + i))
            ++ (sboxEncrypt M
                  (M.scrypt (utf8Encode password) ((List.range 32).map rng) 32768 8 1 32)
                  ((List.range 24).map (fun i => rng (32 + i)))
                  (keystorePlaintext seed_bytes keypair.public_key)).drop 24)
    ∧ packLE4 32768 = [0, 128, 0, 0]
    ∧ packLE4 1 = [1, 0, 0, 0]
    ∧ packLE4 8 = [8, 0, 0, 0] :=
  ⟨rfl, rfl, rfl, rfl⟩

/-- C5: evidence that the two key-derivation branches do not compute the
same function.  The primary branch calls scrypt with `n = 32768`; the
PyNaCl fallback passes `opslimit = 32768` and
`memlimit = 128 * 32768 * 8 = 33554432` to `nacl.pwhash.scrypt.kdf`,
whose libsodium parameter picker takes the `opslimit < memlimit / 32`
branch and turns `maxn = 32768 / 32 = 1024` into `n_log2 = 10`, so the
fallback computes scrypt with `n = 2 ^ 10 = 1024`, not 32768; a
primitive that depends on `n` (as scrypt does) distinguishes the two
branches. -/
theorem C5_fallback_scrypt_n_1024 :
    pickScryptParams (1 <<< 15) (128 * (1 <<< 15) * 8) = (10, 8, 1)
    ∧ (∀ (M : CryptoModel) (pw salt : Bytes),
        build_keystore_fallback_key M pw salt = M.scrypt pw salt 1024 8 1 32)
    ∧ (1024 : Nat) ≠ 32768
    ∧ ∃ M : CryptoModel, ∃ pw salt : Bytes,
        build_keystore_fallback_key M pw salt ≠ M.scrypt pw salt 32768 8 1 32 := by
  have hp : pickScryptParams 32768 33554432 = (10, 8, 1) := by decide
  refine ⟨by decide, ?_, by decide, ?_⟩
  · intro M pw salt
    simp only [build_keystore_fallback_key, pwhash_scrypt_kdf]
    rw [show (1 <<< 15 : Nat) = 32768 from rfl,
      show (128 * 32768 * 8 : Nat) = 33554432 from rfl, hp]
    norm_num
  · exact ⟨M1, [], [], by decide⟩

/-- Counterexample to C4 as stated: the NaCl secretbox output that
follows the nonce is not laid out as ciphertext followed by the 16-byte
tag.  At the concrete instance `M0` with all-zero key, nonce, seed and
public key, the box differs from `ciphertext ++ tag`. -/
theorem C4_tag_last_counterexample :
    ¬ ((sboxEncrypt M0 (List.replicate 32 0) (List.replicate 24 0)
          (keystorePlaintext (List.replicate 32 0) (List.replicate 32 0))).drop 24
        = sboxCipher M0 (List.replicate 32 0) (List.replicate 24 0)
            (keystorePlaintext (List.replicate 32 0) (List.replicate 32 0))
          ++ M0.tag (List.replicate 32 0) (List.replicate 24 0)
              (sboxCipher M0 (List.replicate 32 0) (List.replicate 24 0)
                (keystorePlaintext (List.replicate 32 0) (List.replicate 32 0)))) := by
  decide

/-- C4 amended: encrypting the plaintext under xsalsa20-poly1305 with the
derived key and fresh 24-byte nonce produces the NaCl box laid out as
the 16-byte authentication tag followed by the ciphertext (tag first),
and only this authenticated output — without the prepended nonce — is
placed after the nonce in the encoded blob. -/
theorem C4_box_tag_first (M : CryptoModel) (key nonce pt : Bytes)
    (rng : Nat → Nat) (now : Nat) (keypair : Keypair)
    (seed_bytes password : Bytes) (h : nonce.length = 24) :
    (sboxEncrypt M key nonce pt).drop 24
        = M.tag key nonce (sboxCipher M key nonce pt) ++ sboxCipher M key nonce pt
    ∧ (build_keystore M rng now keypair seed_bytes password).encoded
        = base64Encode ((List.range 32).map rng
            ++ packLE4 32768 ++ packLE4 1 ++ packLE4 8
            ++ (List.range 24).map (fun i => rng (32 + i))
            ++ (M.tag (M.scrypt (utf8Encode password) ((List.range 32).map rng) 32768 8 1 32)
                  ((List.range 24).map (fun i => rng (32 + i)))
                  (sboxCipher M
                    (M.scrypt (utf8Encode password) ((List.range 32).map rng) 32768 8 1 32)
                    ((List.range 24).map (fun i => rng (32 + i)))
                    (keystorePlaintext seed_bytes keypair.public_key))
                ++ sboxCipher M
                    (M.scrypt (utf8Encode password) ((List.range 32).map rng) 32768 8 1 32)
                    ((List.range 24).map (fun i => rng (32 + i)))
                    (keystorePlaintext seed_bytes keypair.public_key))) := by
  have hN : ((List.range 24).map (fun i => rng (32 + i))).length = 24 := by simp
  constructor
  · exact List.drop_left' h
  · show base64Encode ((List.range 32).map rng
        ++ packLE4 (1 <<< 15) ++ packLE4 1 ++ packLE4 8
        ++ (List.range 24).map (fun i => rng (32 + i))
        ++ (sboxEncrypt M
              (M.scrypt (utf8Encode password) ((List.range 32).map rng) (1 <<< 15) 8 1 32)
              ((List.range 24).map (fun i => rng (32 + i)))
              (keystorePlaintext seed_bytes keypair.public_key)).drop 24) = _
    rw [show (1 <<< 15 : Nat) = 32768 from rfl]
    rw [show ∀ key2 pt2 : Bytes, (sboxEncrypt M key2
          ((List.range 24).map (fun i => rng (32 + i))) pt2).drop 24
        = M.tag key2 ((List.range 24).map (fun i => rng (32 + i)))
            (sboxCipher M key2 ((List.range 24).map (fun i => rng (32 + i))) pt2)
          ++ sboxCipher M key2 ((List.range 24).map (fun i => rng (32 + i))) pt2
      from fun key2 pt2 => List.drop_left' hN]

/-- Witness for the amended C4 at the concrete instance `M0` with
all-zero key and nonce. -/
theorem C4_box_tag_first_witness :
    ((List.replicate 24 0 : Bytes).length = 24)
      ∧ (sboxEncrypt M0 (List.replicate 32 0) (List.replicate 24 0)
            (keystorePlaintext (List.replicate 32 0) (List.replicate 32 0))).drop 24
          = M0.tag (List.replicate 32 0) (List.replicate 24 0)
              (sboxCipher M0 (List.replicate 32 0) (List.replicate 24 0)
                (keystorePlaintext (List.replicate 32 0) (List.replicate 32 0)))
            ++ sboxCipher M0 (List.replicate 32 0) (List.replicate 24 0)
                (keystorePlaintext (List.replicate 32 0) (List.replicate 32 0)) :=
  ⟨by decide,
    (C4_box_tag_first M0 (List.replicate 32 0) (List.replicate 24 0)
      (keystorePlaintext (List.replicate 32 0) (List.replicate 32 0))
      (fun _ => 0) 0 { public_key := [], ss58_address := "" } [] []
      (by decide)).1⟩

theorem parse_blob (salt p1 p2 p3 nonce box : Bytes)
    (h1 : salt.length = 32) (hp1 : p1.length = 4) (hp2 : p2.length = 4)
    (hp3 : p3.length = 4) (hn : nonce.length = 24) :
    (salt ++ p1 ++ p2 ++ p3 ++ nonce ++ box).take 32 = salt
    ∧ (salt ++ p1 ++ p2 ++ p3 ++ nonce ++ box).drop 32
        = p1 ++ (p2 ++ (p3 ++ (nonce ++ box)))
    ∧ (salt ++ p1 ++ p2 ++ p3 ++ nonce ++ box).drop 36
        = p2 ++ (p3 ++ (nonce ++ box))
    ∧ (salt ++ p1 ++ p2 ++ p3 ++ nonce ++ box).drop 40 = p3 ++ (nonce ++ box)
    ∧ ((salt ++ p1 ++ p2 ++ p3 ++ nonce ++ box).drop 44).take 24 = nonce
    ∧ (salt ++ p1 ++ p2 ++ p3 ++ nonce ++ box).drop 68 = box := by
  have heq : salt ++ p1 ++ p2 ++ p3 ++ nonce ++ box
      = salt ++ (p1 ++ (p2 ++ (p3 ++ (nonce ++ box)))) := by
    simp [List.append_assoc]
  have e32 : (salt ++ p1 ++ p2 ++ p3 ++ nonce ++ box).drop 32
      = p1 ++ (p2 ++ (p3 ++ (nonce ++ box))) := by
    rw [heq]; exact List.drop_left' h1
  have e36 : (salt ++ p1 ++ p2 ++ p3 ++ nonce ++ box).drop 36
      = p2 ++ (p3 ++ (nonce ++ box)) := by
    rw [show (36 : Nat) = 32 + 4 from rfl, ← List.drop_drop, e32]
    exact List.drop_left' hp1
  have e40 : (salt ++ p1 ++ p2 ++ p3 ++ nonce ++ box).drop 40
      = p3 ++ (nonce ++ box) := by
    rw [show (40 : Nat) = 36 + 4 from rfl, ← List.drop_drop, e36]
    exact List.drop_left' hp2
  have e44 : (salt ++ p1 ++ p2 ++ p3 ++ nonce ++ box).drop 44 = nonce ++ box := by
    rw [show (44 : Nat) = 40 + 4 from rfl, ← List.drop_drop, e40]
    exact List.drop_left' hp3
  have e68 : (salt ++ p1 ++ p2 ++ p3 ++ nonce ++ box).drop 68 = box := by
    rw [show (68 : Nat) = 44 + 24 from rfl, ← List.drop_drop, e44]
    exact List.drop_left' hn
  refine ⟨?_, e32, e36, e40, ?_, e68⟩
  · rw [heq]; exact List.take_left' h1
  · rw [e44]; exact List.take_left' hn

theorem keystorePlaintext_mem_lt (seed pub : Bytes)
    (hs : ∀ b ∈ seed, b < 256) (hp : ∀ b ∈ pub, b < 256) :
    ∀ b ∈ keystorePlaintext seed pub, b < 256 := by
  intro b hb
  simp only [keystorePlaintext, List.append_assoc, List.mem_append] at hb
  rcases hb with h | h | h | h
  · exact (by decide : ∀ x ∈ pkcs8_header, x < 256) b h
  · exact hs b h
  · exact (by decide : ∀ x ∈ pkcs8_divider, x < 256) b h
  · exact hp b h

theorem keystorePlaintext_parts (seed pub : Bytes) (hslen : seed.length = 32) :
    ((keystorePlaintext seed pub).drop 16).take 32 = seed
    ∧ (keystorePlaintext seed pub).drop 53 = pub := by
  have heq : keystorePlaintext seed pub
      = pkcs8_header ++ (seed ++ (pkcs8_divider ++ pub)) := by
    simp [keystorePlaintext, List.append_assoc]
  have e16 : (keystorePlaintext seed pub).drop 16 = seed ++ (pkcs8_divider ++ pub) := by
    rw [heq]; exact List.drop_left' (by decide)
  have e48 : (keystorePlaintext seed pub).drop 48 = pkcs8_divider ++ pub := by
    rw [show (48 : Nat) = 16 + 32 from rfl, ← List.drop_drop, e16]
    exact List.drop_left' hslen
  have e53 : (keystorePlaintext seed pub).drop 53 = pub := by
    rw [show (53 : Nat) = 48 + 5 from rfl, ← List.drop_drop, e48]
    exact List.drop_left' (by decide)
  refine ⟨?_, e53⟩
  rw [e16]; exact List.take_left' hslen

theorem build_keystore_encoded (M : CryptoModel) (rng : Nat → Nat) (now : Nat)
    (keypair : Keypair) (seed_bytes password : Bytes) :
    (build_keystore M rng now keypair seed_bytes password).encoded
      = base64Encode (keystoreBlob M rng keypair seed_bytes password) := by
  show base64Encode (keystoreSalt rng ++ packLE4 (1 <<< 15) ++ packLE4 1 ++ packLE4 8
      ++ keystoreNonce rng
      ++ (sboxEncrypt M (keystoreKey M rng password) (keystoreNonce rng)
            (keystorePlaintext seed_bytes keypair.public_key)).drop 24) = _
  rw [show (sboxEncrypt M (keystoreKey M rng password) (keystoreNonce rng)
        (keystorePlaintext seed_bytes keypair.public_key)).drop 24
      = keystoreBox M rng keypair seed_bytes password
    from List.drop_left' (by simp [keystoreNonce])]
  rfl

theorem keystoreBox_mem_lt (M : CryptoModel) (rng : Nat → Nat) (keypair : Keypair)
    (seed_bytes password : Bytes)
    (hs : ∀ b ∈ seed_bytes, b < 256) (hp : ∀ b ∈ keypair.public_key, b < 256)
    (ht : ∀ k n c : Bytes, ∀ b ∈ M.tag k n c, b < 256) :
    ∀ b ∈ keystoreBox M rng keypair seed_bytes password, b < 256 := by
  intro b hb
  simp only [keystoreBox, List.mem_append] at hb
  rcases hb with h | h
  · exact ht _ _ _ b h
  · exact sboxCipher_mem_lt M _ _ _
      (keystorePlaintext_mem_lt seed_bytes keypair.public_key hs hp) b h

theorem keystoreBlob_mem_lt (M : CryptoModel) (rng : Nat → Nat) (keypair : Keypair)
    (seed_bytes password : Bytes)
    (hs : ∀ b ∈ seed_bytes, b < 256) (hp : ∀ b ∈ keypair.public_key, b < 256)
    (hr : ∀ i, rng i < 256)
    (ht : ∀ k n c : Bytes, ∀ b ∈ M.tag k n c, b < 256) :
    ∀ b ∈ keystoreBlob M rng keypair seed_bytes password, b < 256 := by
  intro b hb
  simp only [keystoreBlob, List.append_assoc, List.mem_append] at hb
  rcases hb with h | h | h | h | h | h
  · simp only [keystoreSalt, List.mem_map] at h
    obtain ⟨i, _, rfl⟩ := h
    exact hr i
  · exact packLE4_mem_lt _ b h
  · exact packLE4_mem_lt _ b h
  · exact packLE4_mem_lt _ b h
  · simp only [keystoreNonce, List.mem_map] at h
    obtain ⟨i, _, rfl⟩ := h
    exact hr _
  · exact keystoreBox_mem_lt M rng keypair seed_bytes password hs hp ht b h

theorem keystoreBlob_parse (M : CryptoModel) (rng : Nat → Nat) (keypair : Keypair)
    (seed_bytes password : Bytes) :
    (keystoreBlob M rng keypair seed_bytes password).take 32 = keystoreSalt rng
    ∧ readLE4 ((keystoreBlob M rng keypair seed_bytes password).drop 32) = 32768
    ∧ readLE4 ((keystoreBlob M rng keypair seed_bytes password).drop 36) = 1
    ∧ readLE4 ((keystoreBlob M rng keypair seed_bytes password).drop 40) = 8
    ∧ ((keystoreBlob M rng keypair seed_bytes password).drop 44).take 24
        = keystoreNonce rng
    ∧ (keystoreBlob M rng keypair seed_bytes password).drop 68
        = keystoreBox M rng keypair seed_bytes password := by
  obtain ⟨t32, d32, d36, d40, t24, d68⟩ :=
    parse_blob (keystoreSalt rng) (packLE4 (1 <<< 15)) (packLE4 1) (packLE4 8)
      (keystoreNonce rng) (keystoreBox M rng keypair seed_bytes password)
      (by simp [keystoreSalt]) (by simp [packLE4]) (by simp [packLE4])
      (by simp [packLE4]) (by simp [keystoreNonce])
  simp only [keystoreBlob]
  refine ⟨t32, ?_, ?_, ?_, t24, d68⟩
  · rw [d32, readLE4_packLE4 _ _ (by decide)]; decide
  · rw [d36, readLE4_packLE4 _ _ (by decide)]
  · rw [d40, readLE4_packLE4 _ _ (by decide)]

theorem decodeKeystore_build (M : CryptoModel) (rng : Nat → Nat) (now : Nat)
    (keypair : Keypair) (seed_bytes password : Bytes)
    (hs : ∀ b ∈ seed_bytes, b < 256)
    (hp : ∀ b ∈ keypair.public_key, b < 256)
    (hr : ∀ i, rng i < 256)
    (htlen : ∀ k n c : Bytes, (M.tag k n c).length = 16)
    (ht : ∀ k n c : Bytes, ∀ b ∈ M.tag k n c, b < 256) :
    decodeKeystore M password (build_keystore M rng now keypair seed_bytes password)
      = some (keystorePlaintext seed_bytes keypair.public_key) := by
  obtain ⟨t32, d32, d36, d40, t24, d68⟩ :=
    keystoreBlob_parse M rng keypair seed_bytes password
  have hb := keystoreBlob_mem_lt M rng keypair seed_bytes password hs hp hr ht
  simp only [decodeKeystore]
  rw [build_keystore_encoded M rng now keypair seed_bytes password,
    base64_roundtrip (keystoreBlob M rng keypair seed_bytes password) hb,
    t32, d32, d36, d40, t24, d68]
  rw [show M.scrypt (utf8Encode password) (keystoreSalt rng) 32768 8 1 32
      = keystoreKey M rng password from rfl]
  simp only [keystoreBox, sboxDecrypt]
  rw [List.take_left' (htlen _ _ _), List.drop_left' (htlen _ _ _), if_pos rfl]
  simp only [keystoreCipher]
  rw [sboxCipher_invol]

/-- C7: base64-decoding the `encoded` field, reading back the salt, the
scrypt parameters and the nonce from the blob, re-deriving the key with
the original password and opening the authenticated box recovers exactly
the 85-byte plaintext; its bytes 16 to 47 (the 32 bytes after the
header) are the original seed and its last 32 bytes are the original
public key. -/
theorem C7_keystore_roundtrip (M : CryptoModel) (rng : Nat → Nat) (now : Nat)
    (keypair : Keypair) (seed_bytes password : Bytes)
    (hslen : seed_bytes.length = 32) (hs : ∀ b ∈ seed_bytes, b < 256)
    (hplen : keypair.public_key.length = 32) (hp : ∀ b ∈ keypair.public_key, b < 256)
    (hr : ∀ i, rng i < 256)
    (htlen : ∀ k n c : Bytes, (M.tag k n c).length = 16)
    (ht : ∀ k n c : Bytes, ∀ b ∈ M.tag k n c, b < 256) :
    decodeKeystore M password (build_keystore M rng now keypair seed_bytes password)
        = some (keystorePlaintext seed_bytes keypair.public_key)
    ∧ (keystorePlaintext seed_bytes keypair.public_key).length = 85
    ∧ ((keystorePlaintext seed_bytes keypair.public_key).drop 16).take 32 = seed_bytes
    ∧ (keystorePlaintext seed_bytes keypair.public_key).drop 53 = keypair.public_key :=
  ⟨decodeKeystore_build M rng now keypair seed_bytes password hs hp hr htlen ht,
    by simp [keystorePlaintext, pkcs8_header, pkcs8_divider, hslen, hplen],
    (keystorePlaintext_parts seed_bytes keypair.public_key hslen).1,
    (keystorePlaintext_parts seed_bytes keypair.public_key hslen).2⟩

/-- Witness for C7 at the concrete instance `M0`, zero urandom stream,
all-zero seed and public key, empty password. -/
theorem C7_keystore_roundtrip_witness :
    ((List.replicate 32 0 : Bytes).length = 32)
      ∧ decodeKeystore M0 []
            (build_keystore M0 (fun _ => 0) 0
              { public_key := List.replicate 32 0, ss58_address := "" }
              (List.replicate 32 0) [])
          = some (keystorePlaintext (List.replicate 32 0) (List.replicate 32 0)) :=
  ⟨by decide,
    (C7_keystore_roundtrip M0 (fun _ => 0) 0
      { public_key := List.replicate 32 0, ss58_address := "" }
      (List.replicate 32 0) [] (by decide) (by decide) (by decide) (by decide)
      (by intro i; show (0 : Nat) < 256; decide)
      (by intro k n c; show (List.replicate 16 0 : Bytes).length = 16; decide)
      (by intro k n c b hb; have := List.eq_of_mem_replicate hb; omega)).1⟩

/-- C6: the encoder draws its 32-byte salt and 24-byte nonce from the
CSPRNG stream inside the call (the stream, not the salt or nonce, is the
input), so two encode calls of the same seed, public key and password
whose salt draws differ produce different `encoded` blobs. -/
theorem C6_fresh_salt_distinct_blobs (M : CryptoModel) (rng1 rng2 : Nat → Nat)
    (now1 now2 : Nat) (keypair : Keypair) (seed_bytes password : Bytes)
    (hs : ∀ b ∈ seed_bytes, b < 256) (hp : ∀ b ∈ keypair.public_key, b < 256)
    (hr1 : ∀ i, rng1 i < 256) (hr2 : ∀ i, rng2 i < 256)
    (ht : ∀ k n c : Bytes, ∀ b ∈ M.tag k n c, b < 256)
    (hsalt : keystoreSalt rng1 ≠ keystoreSalt rng2) :
    (build_keystore M rng1 now1 keypair seed_bytes password).encoded
      ≠ (build_keystore M rng2 now2 keypair seed_bytes password).encoded := by
  intro he
  rw [build_keystore_encoded M rng1 now1 keypair seed_bytes password,
    build_keystore_encoded M rng2 now2 keypair seed_bytes password] at he
  have hb1 := keystoreBlob_mem_lt M rng1 keypair seed_bytes password hs hp hr1 ht
  have hb2 := keystoreBlob_mem_lt M rng2 keypair seed_bytes password hs hp hr2 ht
  have hblob : keystoreBlob M rng1 keypair seed_bytes password
      = keystoreBlob M rng2 keypair seed_bytes password := by
    have h2 := congrArg base64Decode he
    rwa [base64_roundtrip _ hb1, base64_roundtrip _ hb2] at h2
  have h3 := congrArg (List.take 32) hblob
  rw [(keystoreBlob_parse M rng1 keypair seed_bytes password).1,
    (keystoreBlob_parse M rng2 keypair seed_bytes password).1] at h3
  exact hsalt h3

/-- Witness for C6 at the concrete instance `M0` with the all-zero and
all-one urandom streams. -/
theorem C6_fresh_salt_distinct_blobs_witness :
    (keystoreSalt (fun _ => 0) ≠ keystoreSalt rngOne)
      ∧ (build_keystore M0 (fun _ => 0) 0
            { public_key := List.replicate 32 0, ss58_address := "" }
            (List.replicate 32 0) []).encoded
          ≠ (build_keystore M0 rngOne 1
              { public_key := List.replicate 32 0, ss58_address := "" }
              (List.replicate 32 0) []).encoded :=
  ⟨by decide,
    C6_fresh_salt_distinct_blobs M0 (fun _ => 0) rngOne 0 1
      { public_key := List.replicate 32 0, ss58_address := "" }
      (List.replicate 32 0) [] (by decide) (by decide)
      (by intro i; show (0 : Nat) < 256; decide)
      (by intro i; show (1 : Nat) < 256; decide)
      (by intro k n c b hb; have := List.eq_of_mem_replicate hb; omega)
      (by decide)⟩
